import Mathlib

/-!
Shallow embedding of the `taw` filesystem-entry finder (src/main.rs, src/args.rs).

Strings are modelled as `List Char` (Rust byte/char boundaries collapse to
list positions).  The external regex engine is modelled as a `Matcher`:
a function from a string to the list of `(start, end)` offsets produced by
`captures_iter`; the iterator's documented guarantee (leftmost,
non-overlapping, in-bounds matches) is the predicate `MatcherWF`.
A concrete executable instance, `litMatcher`, performs literal substring
search and is proved well-formed.

Terminal styling (`colored`) is modelled as style tags on chunks; fallible
slicing (`str::get(..).unwrap()`) is modelled with `Option`, where `none`
plays the role of a panic.
-/

set_option autoImplicit false

/-- Display role of a rendered chunk: `matched` stands for
green+bold+underline, `dim` for dimmed+italic, `bold` for bold. -/
inductive Style
  | plain
  | matched
  | dim
  | bold
deriving DecidableEq, Repr

/-- A rendered chunk: a run of characters together with its style. -/
abbrev Chunk := List Char × Style

/-- Strip the style markers: concatenate the chunk texts in order. -/
def chunksText (cs : List Chunk) : List Char :=
  (cs.map Prod.fst).flatten

/-- Well-formedness of a capture list relative to a string of length `len`,
starting from position `last`: captures are in order, non-overlapping and
in bounds.  This is the guarantee of `Regex::captures_iter`. -/
def capsWF (len : Nat) : Nat → List (Nat × Nat) → Bool
  | _, [] => true
  | last, c :: rest =>
    decide (last ≤ c.1 ∧ c.1 ≤ c.2 ∧ c.2 ≤ len) && capsWF len c.2 rest

/-- Model of Rust `str::get(a..b)`: `some` slice when the bounds are valid,
`none` (a would-be panic site once `unwrap`ped) otherwise. -/
def sliceGet (s : List Char) (a b : Nat) : Option (List Char) :=
  if a ≤ b ∧ b ≤ s.length then some ((s.take b).drop a) else none

/-- The captures-iteration loop of main.rs: starting at `last`, for each
capture `(start, end)` push the context slice `s[last..start]` and the
matched slice `s[start..end]` (styled `mt`), then finish with the trailing
slice `s[last..]` in the context style `ctx`.  `none` models a panic of
one of the `get(..).unwrap()` calls. -/
def hlGo (ctx mt : Style) (s : List Char) : Nat → List (Nat × Nat) → Option (List Chunk)
  | last, [] =>
    (sliceGet s last s.length).map (fun t => [(t, ctx)])
  | last, c :: rest =>
    match sliceGet s last c.1, sliceGet s c.1 c.2, hlGo ctx mt s c.2 rest with
    | some c1, some c2, some tl => some ((c1, ctx) :: (c2, mt) :: tl)
    | _, _, _ => none

/-- Name-highlighting instance of the loop (main.rs:96-123): context chunks
are plain, matched chunks are green+bold+underline. -/
def nameChunks (s : List Char) (caps : List (Nat × Nat)) : Option (List Chunk) :=
  hlGo Style.plain Style.matched s 0 caps

/-- Line-highlighting instance of the loop (main.rs:147-176): context chunks
are dimmed+italic, matched chunks are green+bold+underline. -/
def lineChunks (s : List Char) (caps : List (Nat × Nat)) : Option (List Chunk) :=
  hlGo Style.dim Style.matched s 0 caps

/-- A matcher: the offsets `captures_iter` yields on a given string. -/
abbrev Matcher := List Char → List (Nat × Nat)

/-- The regex iterator guarantee: on every string the produced capture list
is ordered, non-overlapping and in bounds. -/
def MatcherWF (m : Matcher) : Prop :=
  ∀ s : List Char, capsWF s.length 0 (m s) = true

/-- Fuel-driven literal substring search: leftmost, non-overlapping
occurrences of `pat`, reported as `(start, end)` offsets shifted by `i`.
Concrete executable stand-in for a regex matcher on literal patterns. -/
def litCapsF (pat : List Char) : Nat → List Char → Nat → List (Nat × Nat)
  | 0, _, _ => []
  | _ + 1, [], _ => []
  | fuel + 1, c :: t, i =>
    if pat ≠ [] ∧ pat.isPrefixOf (c :: t) then
      (i, i + pat.length) :: litCapsF pat fuel (t.drop (pat.length - 1)) (i + pat.length)
    else
      litCapsF pat fuel t (i + 1)

/-- Literal substring matcher over a whole string. -/
def litMatcher (pat : List Char) : Matcher :=
  fun s => litCapsF pat (s.length + 1) s 0

/-- Rust `String::lines` step 1: `split_inclusive` on the newline
character, each segment keeping its terminator. -/
def splitInclNl : List Char → List (List Char)
  | [] => []
  | c :: t =>
    if c = '\n' then [c] :: splitInclNl t
    else
      match splitInclNl t with
      | [] => [[c]]
      | l :: ls => (c :: l) :: ls

/-- Rust `String::lines` step 2: strip a trailing newline, and a carriage
return just before it, from one segment. -/
def lineTrim (l : List Char) : List Char :=
  if l.getLast? = some '\n' then
    if l.dropLast.getLast? = some '\r' then l.dropLast.dropLast else l.dropLast
  else l

/-- Model of Rust `String::lines`. -/
def linesOf (s : List Char) : List (List Char) :=
  (splitInclNl s).map lineTrim

/-- Outcome of retrieving and decoding an entry's base name
(`entry_path.file_name()` then `to_str()`). -/
inductive NameRes
  | errRetrieve
  | errDecode
  | ok (n : List Char)
deriving DecidableEq, Repr

/-- Outcome of reading and UTF-8-decoding an entry's content
(`read(..)` then `String::from_utf8`); `ok` carries the decoded text. -/
inductive ReadResult
  | readErr
  | decodeErr
  | ok (content : List Char)
deriving DecidableEq, Repr

/-- The distinct per-entry recoverable failures, matching the messages of
the `entry_warn!` invocations in main.rs. -/
inductive EntryError
  | nameRetrieve
  | nameInterpret
  | readFail
  | decodeFail
deriving DecidableEq, Repr

/-- One filesystem entry from the walker, with the results of the external
name/content retrieval oracles. -/
structure Entry where
  path : List Char
  parent : Option (List Char)
  isDir : Bool
  name : NameRes
  content : ReadResult
deriving DecidableEq, Repr

/-- The resolved options the core loop of main.rs consumes (after the
validity checks and argument transformation phase). -/
structure Options where
  origin : List Char
  originIsDir : Bool
  files : Bool
  directories : Bool
  name : Option Matcher
  text : Option Matcher
  list : Bool
  warnings : Bool

/-- What processing one entry produces: filtered out with no output,
skipped with a recoverable warning, or rendered output. -/
inductive EntryOutcome
  | excluded
  | failed (w : EntryError × List Char)
  | output (displayPath : List Chunk) (lines : List (List Chunk))
deriving DecidableEq, Repr

/-- Intermediate result of one matcher stage: a panic, an early exit of the
whole entry (`continue` with or without warning), or a value to carry on
with. -/
inductive Step (α : Type)
  | panic
  | halt (o : EntryOutcome)
  | cont (a : α)

/-- Origin self-exclusion (main.rs:76):
`args.origin.is_dir() && entry_path == args.origin`. -/
def originSelf (opts : Options) (e : Entry) : Bool :=
  opts.originIsDir && decide (e.path = opts.origin)

/-- Type-filter exclusion (main.rs:77-80): when at least one of the type
flags is set, drop files unless `files` and directories unless
`directories`. -/
def typeFiltered (opts : Options) (e : Entry) : Bool :=
  (opts.directories || opts.files) &&
    ((!e.isDir && !opts.files) || (e.isDir && !opts.directories))

/-- Parent-path prefix pushed on the first capture
(main.rs:99-105): parent path, then a path separator. -/
def parentChunks : Option (List Char) → List Chunk
  | none => []
  | some p => [(p, Style.plain), (['/'], Style.plain)]

/-- Line label pushed on the first capture of a line (main.rs:164-168):
a tab, the 1-based line number in bold, and a bold colon-space. -/
def labelChunks (lineIndex : Nat) : List Chunk :=
  [(['\t'], Style.plain),
   (Nat.toDigits 10 (lineIndex + 1), Style.bold),
   ([':', ' '], Style.bold)]

/-- Name matcher evaluation (main.rs:84-124): no pattern renders the full
path; otherwise retrieve the base name (warn and skip on failure), run
capture iteration, drop the entry on zero captures, and otherwise render
parent prefix plus highlighted name. -/
def nameStep (opts : Options) (e : Entry) : Step (List Chunk) :=
  match opts.name with
  | none => .cont [(e.path, Style.plain)]
  | some m =>
    match e.name with
    | .errRetrieve => .halt (.failed (EntryError.nameRetrieve, e.path))
    | .errDecode => .halt (.failed (EntryError.nameInterpret, e.path))
    | .ok n =>
      match m n with
      | [] => .halt .excluded
      | c :: caps =>
        match nameChunks n (c :: caps) with
        | none => .panic
        | some cs => .cont (parentChunks e.parent ++ cs)

/-- Per-line rendering of a file's lines (main.rs:147-177): lines with zero
captures are omitted; a line with captures is rendered as its label plus
highlighted chunks.  `none` models a slicing panic on some line. -/
def renderLines (m : Matcher) : List (List Char) → Nat → Option (List (List Chunk))
  | [], _ => some []
  | l :: ls, i =>
    match m l with
    | [] => renderLines m ls (i + 1)
    | c :: caps =>
      match lineChunks l (c :: caps), renderLines m ls (i + 1) with
      | some cs, some rest => some ((labelChunks i ++ cs) :: rest)
      | _, _ => none

/-- Text matcher evaluation (main.rs:127-183): no pattern yields no lines;
directories are skipped (`continue`); read/decode failures warn and skip;
otherwise render matching lines and drop the entry when no line matched. -/
def textStep (opts : Options) (e : Entry) : Step (List (List Chunk)) :=
  match opts.text with
  | none => .cont []
  | some m =>
    if e.isDir then .halt .excluded
    else
      match e.content with
      | .readErr => .halt (.failed (EntryError.readFail, e.path))
      | .decodeErr => .halt (.failed (EntryError.decodeFail, e.path))
      | .ok content =>
        match renderLines m (linesOf content) 0 with
        | none => .panic
        | some [] => .halt .excluded
        | some (l :: ls) => .cont (l :: ls)

/-- Processing of one walker entry in the loop body of main.rs: origin
self-exclusion, type filter, name matcher, then text matcher.  `none`
models a panic of a slicing `unwrap`. -/
def processEntry (opts : Options) (e : Entry) : Option EntryOutcome :=
  if originSelf opts e then some .excluded
  else if typeFiltered opts e then some .excluded
  else
    match nameStep opts e with
    | .panic => none
    | .halt o => some o
    | .cont dp =>
      match textStep opts e with
      | .panic => none
      | .halt o => some o
      | .cont ls => some (.output dp ls)

/-- Whether an entry-processing result produced rendered output. -/
def isOutput : Option EntryOutcome → Bool
  | some (.output _ _) => true
  | _ => false

/-- One unit of program output: a gated warning line, a display-path line,
the block of rendered text lines of one entry, or the final space-joined
list of buffered paths. -/
inductive OutUnit
  | warn (w : EntryError × List Char)
  | pathLine (p : List Chunk)
  | textBlock (ls : List (List Chunk))
  | listLine (ps : List (List Chunk))
deriving DecidableEq, Repr

/-- The entry walk of main.rs (main.rs:70-202): walker errors are silently
skipped (`if let Ok`), excluded entries produce nothing, failed entries
emit a warning only when warnings are enabled, output entries emit their
display path (immediately, or buffered in `acc` in list mode) and their
text block; at stream end the buffered list, when non-empty, is emitted
space-joined as one unit. -/
def goCore (opts : Options) : List (Option Entry) → List (List Chunk) → Option (List OutUnit)
  | [], acc => some (if acc.isEmpty then [] else [OutUnit.listLine acc])
  | none :: rest, acc => goCore opts rest acc
  | some e :: rest, acc =>
    match processEntry opts e with
    | none => none
    | some .excluded => goCore opts rest acc
    | some (.failed w) =>
      match goCore opts rest acc with
      | none => none
      | some out => some ((if opts.warnings then [OutUnit.warn w] else []) ++ out)
    | some (.output dp ls) =>
      match goCore opts rest (if opts.list then acc ++ [dp] else acc) with
      | none => none
      | some out =>
        some ((if opts.list then [] else [OutUnit.pathLine dp]) ++
              (if ls.isEmpty then [] else [OutUnit.textBlock ls]) ++ out)

/-- The whole entry walk starting with an empty list buffer. -/
def runCore (opts : Options) (stream : List (Option Entry)) : Option (List OutUnit) :=
  goCore opts stream []

/-- The display paths of the entries that reach the results display, in
stream order (`none` when processing would panic). -/
def corePaths (opts : Options) : List (Option Entry) → Option (List (List Chunk))
  | [] => some []
  | none :: rest => corePaths opts rest
  | some e :: rest =>
    match processEntry opts e with
    | none => none
    | some (.output dp _) =>
      match corePaths opts rest with
      | none => none
      | some ps => some (dp :: ps)
    | some _ => corePaths opts rest

/-- The paths emitted one per output unit (streaming mode). -/
def streamedPaths (us : List OutUnit) : List (List Chunk) :=
  us.filterMap (fun u =>
    match u with
    | .pathLine p => some p
    | _ => none)

/-- The paths emitted inside final joined list units (list mode). -/
def listedPaths (us : List OutUnit) : List (List Chunk) :=
  (us.filterMap (fun u =>
    match u with
    | .listLine ps => some ps
    | _ => none)).flatten

/-- A fatal configuration error, tagged like the distinct `fail!` messages
of main.rs. -/
inductive FatalErr
  | originMissing (path : List Char)
  | canonFail (path : List Char)
  | nameCIFail
  | textCIFail
deriving DecidableEq, Repr

/-- The parsed arguments plus the results of the external oracles the
validity-check phase consults: whether the origin exists and is a
directory, the canonicalization result, and the results of recompiling
each pattern with a leading case-insensitivity flag (`none` = failure). -/
structure RawArgs where
  origin : List Char
  originExists : Bool
  originIsDir : Bool
  canonicalize : Bool
  canonResult : Option (List Char)
  ignoreCase : Bool
  files : Bool
  directories : Bool
  name : Option Matcher
  nameCI : Option Matcher
  text : Option Matcher
  textCI : Option Matcher
  list : Bool
  warnings : Bool

/-- Validity checks and argument transformation of main.rs (lines 39-63),
in source order: origin existence, canonicalization when requested, then
case-insensitive recompilation of the name and text patterns when
requested.  The first failure is fatal. -/
def setup (a : RawArgs) : Except FatalErr Options :=
  if !a.originExists then .error (.originMissing a.origin)
  else
    match (if a.canonicalize then
            match a.canonResult with
            | none => Except.error (FatalErr.canonFail a.origin)
            | some p => Except.ok p
           else Except.ok a.origin) with
    | .error f => .error f
    | .ok origin =>
      match (if a.ignoreCase then
              match a.name with
              | none => Except.ok (none : Option Matcher)
              | some _ =>
                match a.nameCI with
                | none => Except.error FatalErr.nameCIFail
                | some m => Except.ok (some m)
             else Except.ok a.name) with
      | .error f => .error f
      | .ok nm =>
        match (if a.ignoreCase then
                match a.text with
                | none => Except.ok (none : Option Matcher)
                | some _ =>
                  match a.textCI with
                  | none => Except.error FatalErr.textCIFail
                  | some m => Except.ok (some m)
               else Except.ok a.text) with
        | .error f => .error f
        | .ok tx =>
          .ok { origin := origin, originIsDir := a.originIsDir,
                files := a.files, directories := a.directories,
                name := nm, text := tx,
                list := a.list, warnings := a.warnings }

/-- Top-level output: either the single fatal error report or a core
output unit. -/
inductive TopOut
  | fatal (f : FatalErr)
  | unit (u : OutUnit)

/-- The whole program: on a fatal configuration error report it once and
exit with status 1 before touching the stream; otherwise run the entry
walk and exit with status 0.  `none` models a slicing panic. -/
def runMain (a : RawArgs) (stream : List (Option Entry)) : Option (List TopOut × Nat) :=
  match setup a with
  | .error f => some ([TopOut.fatal f], 1)
  | .ok opts =>
    match runCore opts stream with
    | none => none
    | some us => some (us.map TopOut.unit, 0)

/-- The regex iterator guarantee for both configured patterns of an
options value. -/
def OptsWF (opts : Options) : Prop :=
  (∀ m, opts.name = some m → MatcherWF m) ∧ (∀ m, opts.text = some m → MatcherWF m)

/-- Options of a run over origin directory "o" with a text pattern and no
name pattern, no type filter. -/
def c2opts : Options :=
  { origin := ['o'], originIsDir := true, files := false, directories := false,
    name := none, text := some (litMatcher ['x']), list := false, warnings := false }

/-- A subdirectory entry "o/d" of the origin. -/
def c2dir : Entry :=
  { path := ['o', '/', 'd'], parent := some ['o'], isDir := true,
    name := NameRes.ok ['d'], content := ReadResult.ok [] }

/-- Options with a name pattern matching "a" and a text pattern "x". -/
def c3opts : Options :=
  { origin := ['o'], originIsDir := true, files := false, directories := false,
    name := some (litMatcher ['a']), text := some (litMatcher ['x']), list := false,
    warnings := true }

/-- An empty file "o/a" whose base name matches the name pattern of
`c3opts`. -/
def c3file : Entry :=
  { path := ['o', '/', 'a'], parent := some ['o'], isDir := false,
    name := NameRes.ok ['a'], content := ReadResult.ok [] }

/-- Options with a name pattern "z" that the file of `c4file` fails. -/
def c4opts : Options :=
  { origin := ['o'], originIsDir := true, files := false, directories := false,
    name := some (litMatcher ['z']), text := none, list := false, warnings := false }

/-- A file "o/a" whose base name has no occurrence of "z". -/
def c4file : Entry :=
  { path := ['o', '/', 'a'], parent := some ['o'], isDir := false,
    name := NameRes.ok ['a'], content := ReadResult.ok [] }

/-- Options whose filters and patterns would all accept the origin. -/
def c5opts : Options :=
  { origin := ['o'], originIsDir := true, files := false, directories := true,
    name := some (litMatcher ['o']), text := none, list := false, warnings := true }

/-- The origin directory itself as a walked entry. -/
def c5dir : Entry :=
  { path := ['o'], parent := none, isDir := true,
    name := NameRes.ok ['o'], content := ReadResult.readErr }

/-- Options in streaming mode with no patterns. -/
def c6opts : Options :=
  { origin := ['o'], originIsDir := true, files := false, directories := false,
    name := none, text := none, list := false, warnings := false }

/-- A one-entry stream: the file "o/a". -/
def c6stream : List (Option Entry) :=
  [some { path := ['o', '/', 'a'], parent := some ['o'], isDir := false,
          name := NameRes.ok ['a'], content := ReadResult.ok [] }]

/-- Options with warnings enabled and a name pattern. -/
def c7opts : Options :=
  { origin := ['o'], originIsDir := true, files := false, directories := false,
    name := some (litMatcher ['a']), text := none, list := false, warnings := true }

/-- An entry whose base name cannot be retrieved. -/
def c7bad : Entry :=
  { path := ['o', '/', 'b'], parent := some ['o'], isDir := false,
    name := NameRes.errRetrieve, content := ReadResult.ok [] }

/-- Raw arguments whose origin path does not exist. -/
def c8bad : RawArgs :=
  { origin := ['x'], originExists := false, originIsDir := false,
    canonicalize := false, canonResult := none, ignoreCase := false,
    files := false, directories := false,
    name := none, nameCI := none, text := none, textCI := none,
    list := false, warnings := false }

/-- Raw arguments that pass every validity check. -/
def c8good : RawArgs :=
  { c8bad with origin := ['o'], originExists := true, originIsDir := true }

/-- Options with literal name and text patterns on both matchers. -/
def c9opts : Options :=
  { origin := ['o'], originIsDir := true, files := false, directories := false,
    name := some (litMatcher ['o']), text := some (litMatcher ['l']), list := false,
    warnings := false }

/-- A file "o/Foo.txt" with two text lines. -/
def c9file : Entry :=
  { path := ['o', '/', 'F', 'o', 'o'], parent := some ['o'], isDir := false,
    name := NameRes.ok ['F', 'o', 'o'],
    content := ReadResult.ok ['h', 'e', 'l', 'l', 'o', '\n', 'w', 'o', 'r', 'l', 'd'] }

/-- Splitting off a middle slice: for `l ≤ a ≤ length`, the slice
`s[l..a]` followed by the tail `s[a..]` is the tail `s[l..]`. -/
theorem take_drop_chain (s : List Char) (l a : Nat) (h1 : l ≤ a) (h2 : a ≤ s.length) :
    (s.take a).drop l ++ s.drop a = s.drop l := by
  conv_rhs => rw [← List.take_append_drop a s]
  rw [List.drop_append_eq_append_drop, List.length_take]
  have h3 : l - min a s.length = 0 := by omega
  rw [h3, List.drop_zero]

/-- The captures-iteration loop never hits a failing slice on a
well-formed capture list, and its chunks concatenate (styles stripped) to
exactly the tail of the input from the loop's start position. -/
theorem hlGo_spec (ctx mt : Style) (s : List Char) :
    ∀ caps last, capsWF s.length last caps = true → last ≤ s.length →
      ∃ cs, hlGo ctx mt s last caps = some cs ∧ chunksText cs = s.drop last := by
  intro caps
  induction caps with
  | nil =>
    intro last _ hle
    refine ⟨[((s.take s.length).drop last, ctx)], ?_, ?_⟩
    · simp [hlGo, sliceGet, hle]
    · simp [chunksText]
  | cons c rest ih =>
    obtain ⟨a, b⟩ := c
    intro last hwf hle
    simp only [capsWF, Bool.and_eq_true, decide_eq_true_eq] at hwf
    obtain ⟨⟨h1, h2, h3⟩, hrest⟩ := hwf
    obtain ⟨tl, htl, htext⟩ := ih b hrest h3
    have e1 : sliceGet s last a = some ((s.take a).drop last) := by
      simp [sliceGet, h1, le_trans h2 h3]
    have e2 : sliceGet s a b = some ((s.take b).drop a) := by
      simp [sliceGet, h2, h3]
    refine ⟨((s.take a).drop last, ctx) :: ((s.take b).drop a, mt) :: tl, ?_, ?_⟩
    · simp only [hlGo, e1, e2, htl]
    · simp only [chunksText, List.map_cons, List.flatten_cons] at htext ⊢
      rw [htext, take_drop_chain s a b h2 h3,
          take_drop_chain s last a h1 (le_trans h2 h3)]

/-- C1: for every string (base name or file line) and every well-formed
capture list produced by iterative matching, both highlight renderers
(name rendering and line rendering) succeed, and concatenating all
produced spans in order with style markers stripped reproduces the
original string exactly. -/
theorem c1_highlight_repartition (s : List Char) (caps : List (Nat × Nat))
    (hwf : capsWF s.length 0 caps = true) :
    (∃ cs, nameChunks s caps = some cs ∧ chunksText cs = s) ∧
    (∃ cs, lineChunks s caps = some cs ∧ chunksText cs = s) := by
  obtain ⟨cs1, hc1, ht1⟩ := hlGo_spec Style.plain Style.matched s caps 0 hwf (Nat.zero_le _)
  obtain ⟨cs2, hc2, ht2⟩ := hlGo_spec Style.dim Style.matched s caps 0 hwf (Nat.zero_le _)
  exact ⟨⟨cs1, hc1, by simpa using ht1⟩, ⟨cs2, hc2, by simpa using ht2⟩⟩

/-- C1 witness: concrete instance on the string "abc" with one capture. -/
theorem c1_highlight_repartition_witness :
    capsWF (['a', 'b', 'c'].length) 0 [(1, 2)] = true ∧
    ((∃ cs, nameChunks ['a', 'b', 'c'] [(1, 2)] = some cs ∧ chunksText cs = ['a', 'b', 'c']) ∧
     (∃ cs, lineChunks ['a', 'b', 'c'] [(1, 2)] = some cs ∧ chunksText cs = ['a', 'b', 'c'])) :=
  ⟨by decide, c1_highlight_repartition ['a', 'b', 'c'] [(1, 2)] (by decide)⟩

/-- The literal search produces well-formed capture lists, at any fuel:
captures start at or after `last ≤ i`, are ordered, non-overlapping and
within `i + s.length`. -/
theorem capsWF_litCapsF (pat : List Char) :
    ∀ fuel s i last, last ≤ i →
      capsWF (i + s.length) last (litCapsF pat fuel s i) = true := by
  intro fuel
  induction fuel with
  | zero => intro s i last _; simp [litCapsF, capsWF]
  | succ fuel ih =>
    intro s i last hlast
    cases s with
    | nil => simp [litCapsF, capsWF]
    | cons c t =>
      by_cases hp : pat ≠ [] ∧ pat.isPrefixOf (c :: t)
      · have hplen : pat.length ≤ t.length + 1 := by
          have := (List.isPrefixOf_iff_prefix.mp hp.2).length_le
          simpa using this
        have hpos : 1 ≤ pat.length := by
          cases hpx : pat with
          | nil => exact absurd hpx hp.1
          | cons x xs => simp [hpx]
        rw [litCapsF, if_pos hp]
        simp only [capsWF, Bool.and_eq_true, decide_eq_true_eq]
        refine ⟨⟨hlast, Nat.le_add_right i pat.length, ?_⟩, ?_⟩
        · simp only [List.length_cons]; omega
        · have hrec := ih (t.drop (pat.length - 1)) (i + pat.length) (i + pat.length) (le_refl _)
          have hlen2 : (i + pat.length) + (t.drop (pat.length - 1)).length = i + (c :: t).length := by
            simp only [List.length_drop, List.length_cons]; omega
          exact hlen2 ▸ hrec
      · rw [litCapsF, if_neg hp]
        have hrec := ih t (i + 1) last (by omega)
        have hlen : (i + 1) + t.length = i + (c :: t).length := by
          simp only [List.length_cons]; omega
        exact hlen ▸ hrec

/-- The literal substring matcher satisfies the regex iterator
guarantee. -/
theorem litMatcher_wf (pat : List Char) : MatcherWF (litMatcher pat) := by
  intro s
  have h := capsWF_litCapsF pat (s.length + 1) s 0 0 (le_refl 0)
  simpa using h

/-- Under the regex iterator guarantee, rendering a file's lines never
hits a failing slice. -/
theorem renderLines_isSome (m : Matcher) (hm : MatcherWF m) :
    ∀ ls i, ∃ r, renderLines m ls i = some r := by
  intro ls
  induction ls with
  | nil => intro i; exact ⟨[], rfl⟩
  | cons l t ih =>
    intro i
    obtain ⟨r, hr⟩ := ih (i + 1)
    cases hml : m l with
    | nil => exact ⟨r, by simp [renderLines, hml, hr]⟩
    | cons c cs =>
      have hwf : capsWF l.length 0 (c :: cs) = true := hml ▸ hm l
      obtain ⟨ch, hch, _⟩ := hlGo_spec Style.dim Style.matched l (c :: cs) 0 hwf (Nat.zero_le _)
      exact ⟨(labelChunks i ++ ch) :: r, by simp [renderLines, hml, lineChunks, hch, hr]⟩

/-- When no line of the input has a capture, line rendering produces the
empty line list. -/
theorem renderLines_nil (m : Matcher) :
    ∀ ls i, (∀ l ∈ ls, m l = []) → renderLines m ls i = some [] := by
  intro ls
  induction ls with
  | nil => intro i _; rfl
  | cons l t ih =>
    intro i h
    have h1 : m l = [] := h l (by simp)
    simp [renderLines, h1, ih (i + 1) (fun x hx => h x (by simp [hx]))]

/-- The name matcher stage never panics under the regex iterator
guarantee. -/
theorem nameStep_no_panic (opts : Options) (e : Entry)
    (h : ∀ m, opts.name = some m → MatcherWF m) : nameStep opts e ≠ Step.panic := by
  unfold nameStep
  cases hn : opts.name with
  | none => simp [hn]
  | some m =>
    have hm : MatcherWF m := h m hn
    cases hen : e.name with
    | errRetrieve => simp [hn, hen]
    | errDecode => simp [hn, hen]
    | ok n =>
      cases hml : m n with
      | nil => simp [hn, hen, hml]
      | cons c caps =>
        have hwf : capsWF n.length 0 (c :: caps) = true := hml ▸ hm n
        obtain ⟨cs, hcs, _⟩ := hlGo_spec Style.plain Style.matched n (c :: caps) 0 hwf (Nat.zero_le _)
        simp [hn, hen, hml, nameChunks, hcs]

/-- The text matcher stage never panics under the regex iterator
guarantee. -/
theorem textStep_no_panic (opts : Options) (e : Entry)
    (h : ∀ m, opts.text = some m → MatcherWF m) : textStep opts e ≠ Step.panic := by
  unfold textStep
  cases hn : opts.text with
  | none => simp [hn]
  | some m =>
    have hm : MatcherWF m := h m hn
    cases hd : e.isDir with
    | true => simp [hn, hd]
    | false =>
      cases hc : e.content with
      | readErr => simp [hn, hd, hc]
      | decodeErr => simp [hn, hd, hc]
      | ok content =>
        obtain ⟨r, hr⟩ := renderLines_isSome m hm (linesOf content) 0
        cases r with
        | nil => simp [hn, hd, hc, hr]
        | cons x xs => simp [hn, hd, hc, hr]

/-- The name matcher stage only halts an entry by excluding it or by a
recoverable failure, never with rendered output. -/
theorem nameStep_halt_shape {opts : Options} {e : Entry} {o : EntryOutcome}
    (h : nameStep opts e = Step.halt o) :
    o = EntryOutcome.excluded ∨ ∃ w, o = EntryOutcome.failed w := by
  unfold nameStep at h
  split at h
  · simp at h
  · split at h
    · cases h; exact Or.inr ⟨_, rfl⟩
    · cases h; exact Or.inr ⟨_, rfl⟩
    · split at h
      · cases h; exact Or.inl rfl
      · split at h
        · simp at h
        · simp at h

/-- When the text matcher stage excludes an entry, processing it produces
no rendered output, whatever the earlier stages did. -/
theorem notOutput_of_text_excluded (opts : Options) (e : Entry)
    (h : textStep opts e = Step.halt EntryOutcome.excluded) :
    isOutput (processEntry opts e) = false := by
  cases h1 : originSelf opts e with
  | true => simp [processEntry, h1, isOutput]
  | false =>
    cases h2 : typeFiltered opts e with
    | true => simp [processEntry, h1, h2, isOutput]
    | false =>
      cases hn1 : nameStep opts e with
      | panic => simp [processEntry, h1, h2, hn1, isOutput]
      | halt o =>
        rcases nameStep_halt_shape hn1 with rfl | ⟨w, rfl⟩ <;>
          simp [processEntry, h1, h2, hn1, isOutput]
      | cont dp => simp [processEntry, h1, h2, hn1, h, isOutput]

/-- C2 counterexample: with a text pattern configured, the subdirectory
entry "o/d" survives the type filter (removing the text pattern it would
be output), yet with the text pattern it is not output at all — its
display path is never emitted, contradicting the claim that the entry is
still output with an empty lines sequence. -/
theorem c2_dir_output_counterexample :
    isOutput (processEntry { c2opts with text := none } c2dir) = true ∧
    isOutput (processEntry c2opts c2dir) = false ∧
    processEntry c2opts c2dir = some EntryOutcome.excluded := by
  exact ⟨rfl, rfl, rfl⟩

/-- C2 amended: for every directory entry, while a text pattern is
configured, the text renderer is skipped and the entry is dropped
entirely: no display path and no lines are emitted for it. -/
theorem c2_dir_with_text_dropped (opts : Options) (e : Entry)
    (hT : opts.text.isSome = true) (hD : e.isDir = true) :
    isOutput (processEntry opts e) = false := by
  obtain ⟨m, hm⟩ := Option.isSome_iff_exists.mp hT
  apply notOutput_of_text_excluded
  unfold textStep
  simp [hm, hD]

/-- C2 witness: the amended claim at the concrete directory entry. -/
theorem c2_dir_with_text_dropped_witness :
    isOutput (processEntry c2opts c2dir) = false :=
  c2_dir_with_text_dropped c2opts c2dir rfl rfl

/-- C3: for every file entry and configured text pattern, if no line of
the decoded content has a capture, the entry produces no output at all,
whatever the name pattern did. -/
theorem c3_no_line_match_drops_entry (opts : Options) (e : Entry) (m : Matcher)
    (content : List Char) (hm : opts.text = some m) (hd : e.isDir = false)
    (hc : e.content = ReadResult.ok content)
    (hno : ∀ l ∈ linesOf content, m l = []) :
    isOutput (processEntry opts e) = false := by
  apply notOutput_of_text_excluded
  unfold textStep
  simp [hm, hd, hc, renderLines_nil m (linesOf content) 0 hno]

/-- C3 witness: the empty file "o/a", whose base name matches the
configured name pattern, with text pattern "x". -/
theorem c3_no_line_match_drops_entry_witness :
    isOutput (processEntry c3opts c3file) = false :=
  c3_no_line_match_drops_entry c3opts c3file (litMatcher ['x']) [] rfl rfl rfl
    (by decide)

/-- C4: for every entry with a configured name pattern whose base name
yields zero captures, the entry is excluded entirely, and the outcome is
the same whatever the entry's content is — the text renderer is never
consulted. -/
theorem c4_name_mismatch_drops_entry (opts : Options) (e : Entry) (m : Matcher)
    (n : List Char) (hm : opts.name = some m) (hn : e.name = NameRes.ok n)
    (hz : m n = []) :
    ∀ c, processEntry opts { e with content := c } = some EntryOutcome.excluded := by
  intro c
  obtain ⟨p, par, d, nm, ct⟩ := e
  simp only at hn
  subst hn
  cases h1 : originSelf opts { path := p, parent := par, isDir := d, name := NameRes.ok n, content := c } with
  | true => simp [processEntry, h1]
  | false =>
    cases h2 : typeFiltered opts { path := p, parent := par, isDir := d, name := NameRes.ok n, content := c } with
    | true => simp [processEntry, h1, h2]
    | false =>
      have hns : nameStep opts { path := p, parent := par, isDir := d, name := NameRes.ok n, content := c } = Step.halt EntryOutcome.excluded := by
        unfold nameStep
        simp [hm, hz]
      simp [processEntry, h1, h2, hns]

/-- C4 witness: concrete file with non-matching name, content replaced by
an unreadable one to exhibit content-independence. -/
theorem c4_name_mismatch_drops_entry_witness :
    processEntry c4opts { c4file with content := ReadResult.readErr } =
      some EntryOutcome.excluded :=
  c4_name_mismatch_drops_entry c4opts c4file (litMatcher ['z']) ['a'] rfl rfl
    (by decide) ReadResult.readErr

/-- C5: every entry whose path equals the origin is excluded when the
origin is a directory, regardless of the type-filter flags and of the
name and text patterns. -/
theorem c5_origin_self_excluded (opts : Options) (e : Entry)
    (h1 : e.path = opts.origin) (h2 : opts.originIsDir = true) :
    processEntry opts e = some EntryOutcome.excluded := by
  have ho : originSelf opts e = true := by simp [originSelf, h1, h2]
  simp [processEntry, ho]

/-- C5 witness: the origin directory entry itself, with filters and
patterns that would otherwise accept it. -/
theorem c5_origin_self_excluded_witness :
    processEntry c5opts c5dir = some EntryOutcome.excluded :=
  c5_origin_self_excluded c5opts c5dir rfl rfl

/-- Entry processing never reads the list-mode flag. -/
theorem processEntry_list_irrel (opts : Options) (b : Bool) (e : Entry) :
    processEntry { opts with list := b } e = processEntry opts e := by
  cases opts
  rfl

/-- The matched display paths never depend on the list-mode flag. -/
theorem corePaths_list_irrel (opts : Options) (b : Bool) :
    ∀ stream, corePaths { opts with list := b } stream = corePaths opts stream := by
  intro stream
  induction stream with
  | nil => rfl
  | cons x rest ih =>
    cases x with
    | none => simpa [corePaths] using ih
    | some e =>
      cases hpe : processEntry opts e with
      | none => simp [corePaths, processEntry_list_irrel, hpe]
      | some o =>
        cases o <;> simp [corePaths, processEntry_list_irrel, hpe, ih]

/-- A walker error item is skipped with no effect on the loop state. -/
theorem goCore_skip_err (opts : Options) (rest : List (Option Entry))
    (acc : List (List Chunk)) :
    goCore opts (none :: rest) acc = goCore opts rest acc := rfl

/-- Path extraction distributes over output concatenation. -/
theorem streamedPaths_append (u v : List OutUnit) :
    streamedPaths (u ++ v) = streamedPaths u ++ streamedPaths v := by
  simp only [streamedPaths, List.filterMap_append]

/-- List-unit extraction distributes over output concatenation. -/
theorem listedPaths_append (u v : List OutUnit) :
    listedPaths (u ++ v) = listedPaths u ++ listedPaths v := by
  simp only [listedPaths, List.filterMap_append, List.flatten_append]

/-- A gated warning unit carries no streamed path. -/
theorem streamedPaths_gate (c : Prop) [Decidable c] (w : EntryError × List Char) :
    streamedPaths (if c then [OutUnit.warn w] else []) = [] := by
  by_cases h : c
  · rw [if_pos h]; rfl
  · rw [if_neg h]; rfl

/-- A gated warning unit carries no listed path. -/
theorem listedPaths_gate (c : Prop) [Decidable c] (w : EntryError × List Char) :
    listedPaths (if c then [OutUnit.warn w] else []) = [] := by
  by_cases h : c
  · rw [if_pos h]; rfl
  · rw [if_neg h]; rfl

/-- A gated text block carries no streamed path. -/
theorem streamedPaths_block (c : Prop) [Decidable c] (ls : List (List Chunk)) :
    streamedPaths (if c then [] else [OutUnit.textBlock ls]) = [] := by
  by_cases h : c
  · rw [if_pos h]; rfl
  · rw [if_neg h]; rfl

/-- A gated text block carries no listed path. -/
theorem listedPaths_block (c : Prop) [Decidable c] (ls : List (List Chunk)) :
    listedPaths (if c then [] else [OutUnit.textBlock ls]) = [] := by
  by_cases h : c
  · rw [if_pos h]; rfl
  · rw [if_neg h]; rfl

/-- No units, no streamed paths. -/
theorem streamedPaths_nil : streamedPaths [] = [] := rfl

/-- No units, no listed paths. -/
theorem listedPaths_nil : listedPaths [] = [] := rfl

/-- A path unit streams exactly its path. -/
theorem streamedPaths_pathLine (dp : List Chunk) :
    streamedPaths [OutUnit.pathLine dp] = [dp] := rfl

/-- A path unit carries no listed path. -/
theorem listedPaths_pathLine (dp : List Chunk) :
    listedPaths [OutUnit.pathLine dp] = [] := rfl

/-- Unfolding the walk at a walker-error-free entry that was excluded. -/
theorem goCore_cons_excluded (opts : Options) (e : Entry) (rest : List (Option Entry))
    (acc : List (List Chunk)) (h : processEntry opts e = some EntryOutcome.excluded) :
    goCore opts (some e :: rest) acc = goCore opts rest acc := by
  simp only [goCore, h]

/-- Unfolding the walk at a panicking entry. -/
theorem goCore_cons_panic (opts : Options) (e : Entry) (rest : List (Option Entry))
    (acc : List (List Chunk)) (h : processEntry opts e = none) :
    goCore opts (some e :: rest) acc = none := by
  simp only [goCore, h]

/-- Unfolding the walk at an entry skipped by a recoverable failure. -/
theorem goCore_cons_failed (opts : Options) (e : Entry) (rest : List (Option Entry))
    (acc : List (List Chunk)) (w : EntryError × List Char)
    (h : processEntry opts e = some (EntryOutcome.failed w)) :
    goCore opts (some e :: rest) acc =
      match goCore opts rest acc with
      | none => none
      | some out => some ((if opts.warnings then [OutUnit.warn w] else []) ++ out) := by
  simp only [goCore, h]

/-- Unfolding the walk at an entry that produced output. -/
theorem goCore_cons_output_eq (opts : Options) (e : Entry) (rest : List (Option Entry))
    (acc : List (List Chunk)) (dp : List Chunk) (ls : List (List Chunk))
    (h : processEntry opts e = some (EntryOutcome.output dp ls)) :
    goCore opts (some e :: rest) acc =
      match goCore opts rest (if opts.list then acc ++ [dp] else acc) with
      | none => none
      | some out =>
        some ((if opts.list then [] else [OutUnit.pathLine dp]) ++
              (if ls.isEmpty then [] else [OutUnit.textBlock ls]) ++ out) := by
  simp only [goCore, h]

/-- A walker error item leaves the matched-path computation unchanged. -/
theorem corePaths_cons_err (opts : Options) (rest : List (Option Entry)) :
    corePaths opts (none :: rest) = corePaths opts rest := rfl

/-- An excluded entry leaves the matched-path computation unchanged. -/
theorem corePaths_cons_skip (opts : Options) (e : Entry) (rest : List (Option Entry))
    (h : processEntry opts e = some EntryOutcome.excluded) :
    corePaths opts (some e :: rest) = corePaths opts rest := by
  simp only [corePaths, h]

/-- A failed entry leaves the matched-path computation unchanged. -/
theorem corePaths_cons_failed (opts : Options) (e : Entry) (rest : List (Option Entry))
    (w : EntryError × List Char) (h : processEntry opts e = some (EntryOutcome.failed w)) :
    corePaths opts (some e :: rest) = corePaths opts rest := by
  simp only [corePaths, h]

/-- A panicking entry makes the matched-path computation fail. -/
theorem corePaths_cons_panic (opts : Options) (e : Entry) (rest : List (Option Entry))
    (h : processEntry opts e = none) :
    corePaths opts (some e :: rest) = none := by
  simp only [corePaths, h]

/-- Unfolding the matched-path computation at an output entry. -/
theorem corePaths_cons_output_eq (opts : Options) (e : Entry) (rest : List (Option Entry))
    (dp : List Chunk) (ls : List (List Chunk))
    (h : processEntry opts e = some (EntryOutcome.output dp ls)) :
    corePaths opts (some e :: rest) =
      match corePaths opts rest with
      | none => none
      | some qs => some (dp :: qs) := by
  simp only [corePaths, h]

/-- An output entry prepends its display path to the matched paths. -/
theorem corePaths_cons_output (opts : Options) (e : Entry) (rest : List (Option Entry))
    (dp : List Chunk) (ls : List (List Chunk)) (ps : List (List Chunk))
    (h : processEntry opts e = some (EntryOutcome.output dp ls))
    (h2 : corePaths opts rest = some ps) :
    corePaths opts (some e :: rest) = some (dp :: ps) := by
  rw [corePaths_cons_output_eq opts e rest dp ls h, h2]

/-- Streaming mode (`list = false`): a successful run emits exactly the
matched display paths as individual path units, in stream order, and no
joined list unit. -/
theorem goCore_stream_spec (opts : Options) (hL : opts.list = false) :
    ∀ stream u, goCore opts stream [] = some u →
      corePaths opts stream = some (streamedPaths u) ∧ listedPaths u = [] := by
  intro stream
  induction stream with
  | nil =>
    intro u hu
    have hu' : some ([] : List OutUnit) = some u := hu
    cases hu'
    exact ⟨rfl, rfl⟩
  | cons x rest ih =>
    cases x with
    | none =>
      intro u hu
      rw [goCore_skip_err] at hu
      obtain ⟨h1, h2⟩ := ih u hu
      exact ⟨by rw [corePaths_cons_err]; exact h1, h2⟩
    | some e =>
      intro u hu
      cases hpe : processEntry opts e with
      | none =>
        rw [goCore_cons_panic opts e rest [] hpe] at hu
        exact absurd hu (by simp)
      | some o =>
        cases o with
        | excluded =>
          rw [goCore_cons_excluded opts e rest [] hpe] at hu
          obtain ⟨h1, h2⟩ := ih u hu
          exact ⟨by rw [corePaths_cons_skip opts e rest hpe]; exact h1, h2⟩
        | failed w =>
          rw [goCore_cons_failed opts e rest [] w hpe] at hu
          cases hrec : goCore opts rest [] with
          | none => rw [hrec] at hu; exact absurd hu (by simp)
          | some out =>
            rw [hrec] at hu
            simp only [Option.some.injEq] at hu
            subst hu
            obtain ⟨h1, h2⟩ := ih out hrec
            constructor
            · rw [corePaths_cons_failed opts e rest w hpe, streamedPaths_append,
                  streamedPaths_gate, List.nil_append]
              exact h1
            · rw [listedPaths_append, listedPaths_gate, List.nil_append]
              exact h2
        | output dp ls =>
          rw [goCore_cons_output_eq opts e rest [] dp ls hpe, hL] at hu
          simp only [Bool.false_eq_true, if_false] at hu
          cases hrec : goCore opts rest [] with
          | none => rw [hrec] at hu; exact absurd hu (by simp)
          | some out =>
            rw [hrec] at hu
            simp only [Option.some.injEq] at hu
            subst hu
            obtain ⟨h1, h2⟩ := ih out hrec
            constructor
            · rw [corePaths_cons_output opts e rest dp ls (streamedPaths out) hpe h1,
                  streamedPaths_append, streamedPaths_append, streamedPaths_block]
              rfl
            · rw [listedPaths_append, listedPaths_append, listedPaths_block, h2]
              rfl

/-- List mode (`list = true`): a successful run emits no individual path
units; the joined list output holds the initial buffer followed by the
matched display paths, in stream order. -/
theorem goCore_list_spec (opts : Options) (hL : opts.list = true) :
    ∀ stream acc u, goCore opts stream acc = some u →
      ∃ ps, corePaths opts stream = some ps ∧
        streamedPaths u = [] ∧ listedPaths u = acc ++ ps := by
  intro stream
  induction stream with
  | nil =>
    intro acc u hu
    cases acc with
    | nil =>
      have hu' : some ([] : List OutUnit) = some u := hu
      cases hu'
      exact ⟨[], rfl, rfl, rfl⟩
    | cons a as =>
      have hu' : some [OutUnit.listLine (a :: as)] = some u := hu
      cases hu'
      exact ⟨[], rfl, rfl, rfl⟩
  | cons x rest ih =>
    cases x with
    | none =>
      intro acc u hu
      rw [goCore_skip_err] at hu
      obtain ⟨ps, h1, h2, h3⟩ := ih acc u hu
      exact ⟨ps, by rw [corePaths_cons_err]; exact h1, h2, h3⟩
    | some e =>
      intro acc u hu
      cases hpe : processEntry opts e with
      | none =>
        rw [goCore_cons_panic opts e rest acc hpe] at hu
        exact absurd hu (by simp)
      | some o =>
        cases o with
        | excluded =>
          rw [goCore_cons_excluded opts e rest acc hpe] at hu
          obtain ⟨ps, h1, h2, h3⟩ := ih acc u hu
          exact ⟨ps, by rw [corePaths_cons_skip opts e rest hpe]; exact h1, h2, h3⟩
        | failed w =>
          rw [goCore_cons_failed opts e rest acc w hpe] at hu
          cases hrec : goCore opts rest acc with
          | none => rw [hrec] at hu; exact absurd hu (by simp)
          | some out =>
            rw [hrec] at hu
            simp only [Option.some.injEq] at hu
            subst hu
            obtain ⟨ps, h1, h2, h3⟩ := ih acc out hrec
            refine ⟨ps, by rw [corePaths_cons_failed opts e rest w hpe]; exact h1, ?_, ?_⟩
            · rw [streamedPaths_append, streamedPaths_gate, List.nil_append]
              exact h2
            · rw [listedPaths_append, listedPaths_gate, List.nil_append]
              exact h3
        | output dp ls =>
          rw [goCore_cons_output_eq opts e rest acc dp ls hpe, hL] at hu
          simp only [if_true] at hu
          cases hrec : goCore opts rest (acc ++ [dp]) with
          | none => rw [hrec] at hu; exact absurd hu (by simp)
          | some out =>
            rw [hrec] at hu
            simp only [Option.some.injEq] at hu
            subst hu
            obtain ⟨ps, h1, h2, h3⟩ := ih (acc ++ [dp]) out hrec
            refine ⟨dp :: ps,
              corePaths_cons_output opts e rest dp ls ps hpe h1, ?_, ?_⟩
            · rw [streamedPaths_append, streamedPaths_append, streamedPaths_block, h2]
              rfl
            · simp only [listedPaths_append, listedPaths_block, listedPaths_nil, h3,
                  List.nil_append, List.append_nil, List.append_assoc,
                  List.singleton_append]

/-- When the matched-path computation succeeds (no entry panics), the
whole walk succeeds, whatever the initial buffer. -/
theorem goCore_isSome_of_corePaths (opts : Options) :
    ∀ stream ps, corePaths opts stream = some ps →
      ∀ acc, ∃ u, goCore opts stream acc = some u := by
  intro stream
  induction stream with
  | nil => intro ps _ acc; exact ⟨_, rfl⟩
  | cons x rest ih =>
    cases x with
    | none =>
      intro ps hps acc
      rw [corePaths_cons_err] at hps
      rw [goCore_skip_err]
      exact ih ps hps acc
    | some e =>
      intro ps hps acc
      cases hpe : processEntry opts e with
      | none =>
        rw [corePaths_cons_panic opts e rest hpe] at hps
        exact absurd hps (by simp)
      | some o =>
        cases o with
        | excluded =>
          rw [corePaths_cons_skip opts e rest hpe] at hps
          obtain ⟨u, hu⟩ := ih ps hps acc
          exact ⟨u, by rw [goCore_cons_excluded opts e rest acc hpe]; exact hu⟩
        | failed w =>
          rw [corePaths_cons_failed opts e rest w hpe] at hps
          obtain ⟨u, hu⟩ := ih ps hps acc
          refine ⟨(if opts.warnings then [OutUnit.warn w] else []) ++ u, ?_⟩
          rw [goCore_cons_failed opts e rest acc w hpe, hu]
        | output dp ls =>
          rw [corePaths_cons_output_eq opts e rest dp ls hpe] at hps
          cases hrest : corePaths opts rest with
          | none => rw [hrest] at hps; exact absurd hps (by simp)
          | some qs =>
            rw [hrest] at hps
            obtain ⟨u, hu⟩ := ih qs hrest (if opts.list then acc ++ [dp] else acc)
            refine ⟨(if opts.list then [] else [OutUnit.pathLine dp]) ++
                    (if ls.isEmpty then [] else [OutUnit.textBlock ls]) ++ u, ?_⟩
            rw [goCore_cons_output_eq opts e rest acc dp ls hpe, hu]

/-- C6: for every entry stream and options differing only in the
list-mode flag, a successful streaming run and the corresponding list-mode
run produce exactly the same matched display paths: the list-mode joined
output holds precisely the streamed paths, in stream order; streaming mode
emits no joined unit and list mode no individual path unit — only the
grouping differs. -/
theorem c6_list_mode_refines_streaming (opts : Options) (stream : List (Option Entry))
    (u1 : List OutUnit) (hL : opts.list = false) (h1 : runCore opts stream = some u1) :
    ∃ u2, runCore { opts with list := true } stream = some u2 ∧
      listedPaths u2 = streamedPaths u1 ∧ streamedPaths u2 = [] ∧ listedPaths u1 = [] := by
  obtain ⟨hcp, hlp⟩ := goCore_stream_spec opts hL stream u1 h1
  have hcp2 : corePaths { opts with list := true } stream = some (streamedPaths u1) := by
    rw [corePaths_list_irrel]
    exact hcp
  obtain ⟨u2, hu2⟩ := goCore_isSome_of_corePaths { opts with list := true } stream
    (streamedPaths u1) hcp2 []
  obtain ⟨ps, hps, hsp2, hlp2⟩ :=
    goCore_list_spec { opts with list := true } rfl stream [] u2 hu2
  have hps' : ps = streamedPaths u1 := by
    rw [hcp2] at hps
    exact (Option.some.inj hps).symm
  refine ⟨u2, hu2, ?_, hsp2, hlp⟩
  rw [hlp2, hps', List.nil_append]

/-- C6 witness: a one-entry stream with a matching file, list mode versus
streaming mode. -/
theorem c6_list_mode_refines_streaming_witness :
    ∃ u2, runCore { c6opts with list := true } c6stream = some u2 ∧
      listedPaths u2 = streamedPaths [OutUnit.pathLine [(['o', '/', 'a'], Style.plain)]] ∧
      streamedPaths u2 = [] ∧
      listedPaths [OutUnit.pathLine [(['o', '/', 'a'], Style.plain)]] = [] :=
  c6_list_mode_refines_streaming c6opts c6stream
    [OutUnit.pathLine [(['o', '/', 'a'], Style.plain)]] rfl rfl

/-- C7: an entry hitting a recoverable error is skipped by itself: its
warning is emitted exactly when warnings are enabled, no display path or
line of it is ever output, and the walk continues with the rest of the
stream unchanged. -/
theorem c7_recoverable_error_skips_entry (opts : Options) (e : Entry)
    (w : EntryError × List Char) (rest : List (Option Entry))
    (h : processEntry opts e = some (EntryOutcome.failed w)) :
    runCore opts (some e :: rest) =
      (runCore opts rest).map
        (fun out => (if opts.warnings then [OutUnit.warn w] else []) ++ out) := by
  unfold runCore
  rw [goCore_cons_failed opts e rest [] w h]
  cases hrec : goCore opts rest [] <;> rfl

/-- C7 witness: the entry "o/b" whose base name cannot be retrieved,
with warnings enabled. -/
theorem c7_recoverable_error_skips_entry_witness :
    runCore c7opts [some c7bad] =
      (runCore c7opts []).map
        (fun out => (if c7opts.warnings
                     then [OutUnit.warn (EntryError.nameRetrieve, ['o', '/', 'b'])]
                     else []) ++ out) :=
  c7_recoverable_error_skips_entry c7opts c7bad
    (EntryError.nameRetrieve, ['o', '/', 'b']) [] rfl

/-- C8: a fatal configuration error (missing origin, canonicalization
failure, or case-insensitive recompilation failure) is reported exactly
once and the program exits with status 1 whatever the entry stream holds —
no entry is processed; when setup succeeds, any completed run exits with
status 0. -/
theorem c8_fatal_error_exits_nonzero (a : RawArgs) :
    (∀ f, setup a = Except.error f →
      ∀ stream, runMain a stream = some ([TopOut.fatal f], 1)) ∧
    (∀ opts, setup a = Except.ok opts → ∀ stream out code,
      runMain a stream = some (out, code) → code = 0) := by
  constructor
  · intro f hf stream
    simp [runMain, hf]
  · intro opts hok stream out code h
    simp only [runMain, hok] at h
    cases hrc : runCore opts stream with
    | none => rw [hrc] at h; exact absurd h (by simp)
    | some us =>
      rw [hrc] at h
      simp only [Option.some.injEq, Prod.mk.injEq] at h
      exact h.2.symm

/-- C8 witness: a missing origin is fatal with exit status 1; a valid
setup runs to completion with exit status 0. -/
theorem c8_fatal_error_exits_nonzero_witness :
    runMain c8bad [] = some ([TopOut.fatal (FatalErr.originMissing ['x'])], 1) ∧
    (0 : Nat) = 0 :=
  ⟨(c8_fatal_error_exits_nonzero c8bad).1 (FatalErr.originMissing ['x']) rfl [],
   (c8_fatal_error_exits_nonzero c8good).2 _ rfl [] [] 0 rfl⟩

/-- C9: under the regex iterator guarantee (capture offsets non-decreasing,
non-overlapping and within the string), every slicing operation of the
highlight loops succeeds: processing an entry never panics. -/
theorem c9_slicing_never_panics (opts : Options) (e : Entry) (h : OptsWF opts) :
    (processEntry opts e).isSome = true := by
  obtain ⟨hn, ht⟩ := h
  have hns := nameStep_no_panic opts e hn
  have hts := textStep_no_panic opts e ht
  cases h1 : originSelf opts e with
  | true => simp [processEntry, h1]
  | false =>
    cases h2 : typeFiltered opts e with
    | true => simp [processEntry, h1, h2]
    | false =>
      cases hn1 : nameStep opts e with
      | panic => exact absurd hn1 hns
      | halt o => simp [processEntry, h1, h2, hn1]
      | cont dp =>
        cases ht1 : textStep opts e with
        | panic => exact absurd ht1 hts
        | halt o => simp [processEntry, h1, h2, hn1, ht1]
        | cont ls => simp [processEntry, h1, h2, hn1, ht1]

/-- The literal matchers of `c9opts` satisfy the iterator guarantee. -/
theorem c9opts_wf : OptsWF c9opts := by
  constructor
  · intro m hm
    have h := Option.some.inj hm
    rw [← h]
    exact litMatcher_wf ['o']
  · intro m hm
    have h := Option.some.inj hm
    rw [← h]
    exact litMatcher_wf ['l']

/-- C9 witness: the file "o/Foo" with both matchers configured. -/
theorem c9_slicing_never_panics_witness :
    (processEntry c9opts c9file).isSome = true :=
  c9_slicing_never_panics c9opts c9file c9opts_wf

/-- A walker error item anywhere in the stream is invisible to the whole
walk, whatever the buffer. -/
theorem goCore_err_mid (opts : Options) (post : List (Option Entry)) :
    ∀ pre acc, goCore opts (pre ++ none :: post) acc = goCore opts (pre ++ post) acc := by
  intro pre
  induction pre with
  | nil => intro acc; rw [List.nil_append, List.nil_append, goCore_skip_err]
  | cons x rest ih =>
    intro acc
    cases x with
    | none =>
      rw [List.cons_append, List.cons_append, goCore_skip_err, goCore_skip_err, ih]
    | some e =>
      rw [List.cons_append, List.cons_append]
      cases hpe : processEntry opts e with
      | none => rw [goCore_cons_panic _ _ _ _ hpe, goCore_cons_panic _ _ _ _ hpe]
      | some o =>
        cases o with
        | excluded =>
          rw [goCore_cons_excluded _ _ _ _ hpe, goCore_cons_excluded _ _ _ _ hpe, ih]
        | failed w =>
          rw [goCore_cons_failed _ _ _ _ _ hpe, goCore_cons_failed _ _ _ _ _ hpe, ih]
        | output dp ls =>
          rw [goCore_cons_output_eq _ _ _ _ _ _ hpe, goCore_cons_output_eq _ _ _ _ _ _ hpe, ih]

/-- C10: a traversal error item in the entry stream is silently
discarded: the run's output is identical to the run without it — no
warning even when warnings are enabled, no output unit, and processing
continues with the rest of the stream. -/
theorem c10_walker_error_silently_skipped (opts : Options)
    (pre post : List (Option Entry)) :
    runCore opts (pre ++ none :: post) = runCore opts (pre ++ post) :=
  goCore_err_mid opts post pre []
